import Mathlib

/-!
Verification of the incremental change synchronization engine of
readarr-server. The definitions below are a shallow embedding of the
update task (src/tasks/update.ts), of the store/queue operations of the
model layer (model.ts: saveBatchUpdate, saveModel, setStore), and of the
configuration it consumes (src/config.ts). Network fetches are modelled
by explicit outcome traces supplied as inputs; dates are modelled as
abstract day numbers (the engine only ever works at UTC whole-day
granularity); timestamps are abstract clock values.
-/

namespace ReadarrServer

/-- The update-relevant configuration (src/config.ts, `config.update`):
`batchSize` is how many keys to process per batch (default 10), `retries`
how many times to retry each discovery page before giving up (default 1). -/
structure Config where
  batchSize : Nat
  retries : Nat
deriving DecidableEq

/-- The default values of src/config.ts (`UPDATE_BATCH_SIZE`, `UPDATE_RETRIES`). -/
def defaultConfig : Config :=
  { batchSize := 10, retries := 1 }

/-! Batch fetch-and-persist processor: `processKeys`, `updateModels`
(src/tasks/update.ts lines 92-138) and `model.saveBatchUpdate`. -/

/-- One observable action of the batch processor: a processed batch
(tagged with the entity type, the keys attempted and the keys that
failed), or a sleep of the given number of milliseconds. -/
inductive PEvent where
  | batch (type : String) (keys : List String) (failed : List String)
  | sleep (ms : Nat)
deriving DecidableEq

/-- The state `processKeys` acts on: `remainingKeys` is the in-memory work
list of the loop, `queue` the persisted `unprocessed_<type>_keys` store
value, `saved` the keys whose records have been fetched and upserted into
the record store, `delay` the cooldown variable of the loop. -/
structure ProcState where
  remainingKeys : List String
  queue : List String
  saved : List String
  delay : Nat
deriving DecidableEq

/-- `model.saveBatchUpdate` (model.ts): in a single transaction, remove the
batch's original key count from the head of the persisted queue and append
the batch's failed keys at the tail. (The SQL leaves NULL when the result
is empty; `getUnprocessedKeys` reads NULL back as `[]`, so the empty queue
is modelled as the empty list.) -/
def saveBatchUpdate (size : Nat) (failedKeys : List String) (queue : List String) : List String :=
  queue.drop size ++ failedKeys

/-- `updateModels` (update.ts lines 123-138): fetch each key of the batch
sequentially; a key whose fetch or upsert throws is pushed onto
`failedKeys`. `ok k = true` models a successful fetch-and-save of key `k`
within this batch. -/
def updateModels (ok : String → Bool) (keys : List String) : List String :=
  keys.filter (fun k => !ok k)

/-- One iteration of the `while (remainingKeys.length > 0)` loop of
`processKeys` (update.ts lines 96-119), returning the new state and the
observable events of the iteration (the processed batch, then the cooldown
sleep whenever `delay` is non-zero). -/
def processKeysStep (cfg : Config) (type : String) (ok : String → Bool) (s : ProcState) :
    ProcState × List PEvent :=
  if s.remainingKeys = [] then (s, [])
  else
    let batch := s.remainingKeys.take cfg.batchSize
    let failedKeys := updateModels ok batch
    let saved := s.saved ++ batch.filter (fun k => ok k)
    let queue := saveBatchUpdate batch.length failedKeys s.queue
    let remainingKeys :=
      if failedKeys.length ≠ 0 then s.remainingKeys.drop batch.length ++ failedKeys
      else s.remainingKeys.drop batch.length
    let delay :=
      if failedKeys.length ≠ 0 then
        if failedKeys.length > batch.length / 2 then 5 * 60 * 1000 else s.delay
      else s.delay
    (⟨remainingKeys, queue, saved, delay⟩,
      PEvent.batch type batch failedKeys :: (if delay ≠ 0 then [PEvent.sleep delay] else []))

/-- A run of the `processKeys` loop for as many iterations as there are
entries in `os`; the n-th entry gives the per-key fetch outcomes of the
n-th batch (the injected failures). The loop of the source is unbounded
(it ends only when the queue is empty), so a run is indexed by the
outcome trace; an exhausted trace models an interrupted process. -/
def processKeysRun (cfg : Config) (type : String) :
    List (String → Bool) → ProcState → ProcState × List PEvent
  | [], s => (s, [])
  | o :: os, s =>
    let s1 := processKeysStep cfg type o s
    let s2 := processKeysRun cfg type os s1.1
    (s2.1, s1.2 ++ s2.2)

/-- The entry state of `processKeys type keys`: the caller (update.ts
lines 25-27) passes the very list persisted under
`unprocessed_<type>_keys`, so the in-memory list and the persisted queue
coincide, and `delay` starts at 0 (update.ts line 94). -/
def processKeysInit (keys : List String) (saved : List String) : ProcState :=
  { remainingKeys := keys, queue := keys, saved := saved, delay := 0 }

/-- Ten pending keys used by the batch-processor witnesses. -/
def wkeys : List String :=
  [r"/works/OL0W", r"/works/OL1W", r"/works/OL2W", r"/works/OL3W", r"/works/OL4W",
    r"/works/OL5W", r"/works/OL6W", r"/works/OL7W", r"/works/OL8W", r"/works/OL9W"]

/-- A per-key fetch outcome under which exactly 6 of the 10 keys of `wkeys`
fail. -/
def wok6 : String → Bool :=
  fun k => [r"/works/OL0W", r"/works/OL1W", r"/works/OL2W", r"/works/OL3W"].contains k

/-- Checks that every `batch` event of a trace is immediately followed by the
5-minute cooldown sleep. -/
def cooldownAfterEveryBatch : List PEvent → Bool
  | [] => true
  | PEvent.batch _ _ _ :: PEvent.sleep ms :: rest =>
    (ms == 5 * 60 * 1000) && cooldownAfterEveryBatch rest
  | PEvent.batch _ _ _ :: _ => false
  | PEvent.sleep _ :: rest => cooldownAfterEveryBatch rest

/-! Change discovery crawler: `fetchKeys` and `addChangedKeys`
(src/tasks/update.ts lines 42-89 and 161-242). -/

/-- The URL of one recent-changes page fetch (the source formats it as
`.../recentchanges/yyyy/mm/dd/<kind>.json?offset=<n>&limit=1000`); days are
abstract day numbers. -/
structure PageUrl where
  day : Nat
  kind : String
  offset : Nat
deriving DecidableEq

/-- The failure detail recorded under `update_keys_error` (update.ts lines
223-234): timestamp, request URL, the HTTP status when a response was
received, and the response body or error message. -/
structure KeysError where
  time : Nat
  url : PageUrl
  status : Option Nat
  error : String
deriving DecidableEq

/-- Outcome of one fetch of a recent-changes page: `ok` carries the page's
entries, each entry carrying the keys of its `changes` array; `err` is a
network failure (status `none`) or a non-2xx/non-array response (status
`some code`), with the body or message recorded. -/
inductive PageResult where
  | ok (data : List (List String))
  | err (status : Option Nat) (msg : String)
deriving DecidableEq

/-- The three key sets accumulated during discovery. JS `Set` iterates in
insertion order, so each is a list to which `setAdd` adds only new keys. -/
structure KeySets where
  authorKeys : List String
  workKeys : List String
  editionKeys : List String
deriving DecidableEq

/-- `Set.add`: appends the key unless already present. -/
def setAdd (l : List String) (k : String) : List String :=
  if k ∈ l then l else l ++ [k]

/-- JavaScript `String.prototype.startsWith`, modelled on the character
list of the string. -/
def strStartsWith (s pre : String) : Bool :=
  pre.data.isPrefixOf s.data

/-- Classify a changed key into the author/work/edition set by its namespace
prefix (update.ts lines 199-209); unrecognized prefixes are dropped. -/
def classifyKey (sets : KeySets) (key : String) : KeySets :=
  if strStartsWith key (r"/authors/") then { sets with authorKeys := setAdd sets.authorKeys key }
  else if strStartsWith key (r"/works/") then { sets with workKeys := setAdd sets.workKeys key }
  else if strStartsWith key (r"/books/") then { sets with editionKeys := setAdd sets.editionKeys key }
  else sets

/-- Process one page of entries: every key of every entry's `changes` array
is classified into the sets. -/
def addPage (sets : KeySets) (data : List (List String)) : KeySets :=
  data.foldl (fun s item => item.foldl classifyKey s) sets

/-- The `while (offset <= 10000)` pagination loop of `addChangedKeys`
(update.ts lines 175-241), with the per-page retry handling of its catch
block. One loop iteration consumes one fetch outcome from `attempts`; an
exhausted trace is modelled as an aborting failure (all remaining fetches
fail). On a page failure the retry counter is incremented and, once it
exceeds `cfg.retries`, the failure detail is recorded and the error is
propagated; on a successful page the counter resets to 0, the page's keys
are classified, and the loop stops early when the page is shorter than the
1000-entry limit. The `pages` counter is a ghost variable counting the
successfully fetched pages. (The source checks the loop guard
`offset <= 10000` once per iteration around the whole body; here the same
guard is repeated in each arm of the case split on the consumed trace.) -/
def addChangedKeysGo (cfg : Config) (now day : Nat) (kind : String) :
    List PageResult → Nat → Nat → Nat → KeySets → Except KeysError (KeySets × Nat)
  | [], offset, _retries, pages, sets =>
    if offset ≤ 10000 then
      Except.error ⟨now, ⟨day, kind, offset⟩, none, r"fetch outcome trace exhausted"⟩
    else Except.ok (sets, pages)
  | PageResult.ok data :: rest, offset, _retries, pages, sets =>
    if offset ≤ 10000 then
      if data.length < 1000 then Except.ok (addPage sets data, pages + 1)
      else addChangedKeysGo cfg now day kind rest (offset + 1000) 0 (pages + 1) (addPage sets data)
    else Except.ok (sets, pages)
  | PageResult.err status msg :: rest, offset, retries, pages, sets =>
    if offset ≤ 10000 then
      if retries + 1 > cfg.retries then
        Except.error ⟨now, ⟨day, kind, offset⟩, status, msg⟩
      else addChangedKeysGo cfg now day kind rest offset (retries + 1) pages sets
    else Except.ok (sets, pages)

/-- `addChangedKeys` (update.ts lines 161-242): page through one day's
recent-changes feed for one change kind, starting at offset 0 with no
retries consumed. -/
def addChangedKeys (cfg : Config) (now day : Nat) (kind : String)
    (attempts : List PageResult) (sets : KeySets) : Except KeysError (KeySets × Nat) :=
  addChangedKeysGo cfg now day kind attempts 0 0 0 sets

/-- The fixed ordered list of change kinds queried per day (update.ts
line 43). -/
def kinds : List String :=
  [r"add-book", r"edit-book", r"merge-authors", r"revert", r"update"]

/-- The `for (const kind of kinds)` loop of `fetchKeys` (update.ts lines
70-73): run `addChangedKeys` for each change kind of one day, threading the
accumulated sets and propagating a discovery failure. `attempts day kind`
is the fetch-outcome trace of that day and kind. -/
def runKinds (cfg : Config) (now day : Nat) (attempts : Nat → String → List PageResult) :
    List String → KeySets → Except KeysError KeySets
  | [], sets => Except.ok sets
  | kind :: rest, sets =>
    match addChangedKeys cfg now day kind (attempts day kind) sets with
    | Except.error e => Except.error e
    | Except.ok (sets1, _) => runKinds cfg now day attempts rest sets1

/-- The `while (date < currentDate)` day loop of `fetchKeys` (update.ts
lines 60-82). `n` is the number of days still to process: starting from
day `date` with today's day number `today`, the source loop runs exactly
`today - date` iterations, since `date` increases by one day each round.
(The source's partial-day special case — copying the current time of day
onto `date` when its local calendar date equals today's — cannot trigger
when the process runs in UTC, because the guard keeps `date` strictly
before the UTC start of today; the model assumes UTC and omits it.)
After each completed day the three key sets and the watermark are
persisted: `writes` accumulates these checkpoints in order as
`(day, snapshot)` pairs. On a discovery failure the checkpoints made so
far remain and the error propagates. -/
def fetchKeysGo (cfg : Config) (now : Nat) (attempts : Nat → String → List PageResult) :
    Nat → Nat → KeySets → List (Nat × KeySets) →
      List (Nat × KeySets) × Except KeysError KeySets
  | 0, _, sets, writes => (writes, Except.ok sets)
  | n + 1, date, sets, writes =>
    match runKinds cfg now date attempts kinds sets with
    | Except.error e => (writes, Except.error e)
    | Except.ok sets1 => fetchKeysGo cfg now attempts n (date + 1) sets1 (writes ++ [(date, sets1)])

/-- `fetchKeys` (update.ts lines 42-89): read the watermark, start at
`watermark + 1` (only full days are processed), and crawl every day before
`today`. Returns the checkpoint trace and the final key sets (the source
returns `Array.from` of the sets; on success this equals the last persisted
snapshot). -/
def fetchKeys (cfg : Config) (now : Nat) (attempts : Nat → String → List PageResult)
    (watermark today : Nat) : List (Nat × KeySets) × Except KeysError KeySets :=
  fetchKeysGo cfg now attempts (today - (watermark + 1)) (watermark + 1) ⟨[], [], []⟩ []

/-! Record normalizer and upserter: `model.saveModel` (model.ts lines
672-725). -/

/-- The Raw Record Envelope (`Record` in types.ts) as used by `saveModel`:
a typed key, a revision counter, the last-modified timestamp, the author
references (`authors[i].author.key`) and the work references
(`works[i].key`; the upstream type marks the `key` field of a work
reference as optional, hence `Option`). -/
structure Record where
  key : String
  type : String
  revision : Nat
  lastModified : String
  authors : List String
  works : List (Option String)
deriving DecidableEq

/-- A stored entity row: the columns written by `saveModel` (`type`, `key`,
`revision`, `last_modified`, `data`; editions additionally `work_key`,
which stays `none` on the other tables). -/
structure Row where
  type : String
  key : String
  revision : Nat
  lastModified : String
  data : Record
  workKey : Option String
deriving DecidableEq

/-- The record store: one table per entity kind plus the author-to-work
relation table. -/
structure Db where
  authors : List Row
  works : List Row
  editions : List Row
  authorWorks : List (String × String)
deriving DecidableEq

inductive TableId where
  | authors
  | works
  | editions
deriving DecidableEq

/-- The rows of one entity table. -/
def Db.tableRows (dbSt : Db) : TableId → List Row
  | TableId.authors => dbSt.authors
  | TableId.works => dbSt.works
  | TableId.editions => dbSt.editions

/-- The table-selection IIFE of `saveModel`: classify the record by its
key's namespace prefix; an unknown prefix throws. -/
def tableOf (key : String) : Except String TableId :=
  if strStartsWith key (r"/authors/") then Except.ok TableId.authors
  else if strStartsWith key (r"/works/") then Except.ok TableId.works
  else if strStartsWith key (r"/books/") then Except.ok TableId.editions
  else Except.error ((r"Unknown model key type: ") ++ key)

/-- `INSERT ... ON CONFLICT (key) DO UPDATE SET <every non-key column> =
EXCLUDED.<column>`: when a row with the key exists, each row carrying that
key is replaced by the new row (the tables are keyed by `key`, so there is
at most one); otherwise the new row is appended. -/
def upsertRow (t : List Row) (r : Row) : List Row :=
  if t.any (fun x => x.key == r.key) then
    t.map (fun x => if x.key == r.key then r else x)
  else t ++ [r]

/-- `INSERT INTO author_works (author_key, work_key) ... ON CONFLICT
(author_key, work_key) DO NOTHING`. -/
def insertAuthorWork (rel : List (String × String)) (a w : String) : List (String × String) :=
  if (a, w) ∈ rel then rel else rel ++ [(a, w)]

/-- The row written by `saveModel`: the `values` array of the source
(`type.key`, `key`, `revision`, `last_modified.value`, the serialized
record), and for the editions table the extra `work_key` column holding
`record.works?.[0]?.key ?? null`. -/
def mkRow (record : Record) (tbl : TableId) : Row :=
  ⟨record.type, record.key, record.revision, record.lastModified, record,
    if tbl = TableId.editions then record.works.head?.bind id else none⟩

/-- The `author_works` update of `saveModel`: only for work records that
declare a first author with a non-empty (truthy) key. -/
def relFor (record : Record) (tbl : TableId) (dbSt : Db) : List (String × String) :=
  if tbl = TableId.works then
    match record.authors.head? with
    | some a => if a = "" then dbSt.authorWorks else insertAuthorWork dbSt.authorWorks a record.key
    | none => dbSt.authorWorks
  else dbSt.authorWorks

/-- Upsert a row into the given table of the store. -/
def updateTable (dbSt : Db) : TableId → Row → Db
  | TableId.authors, row => { dbSt with authors := upsertRow dbSt.authors row }
  | TableId.works, row => { dbSt with works := upsertRow dbSt.works row }
  | TableId.editions, row => { dbSt with editions := upsertRow dbSt.editions row }

/-- The success path of `saveModel`: update the relation table (works only)
and upsert the row into the classified table. -/
def saveModelGo (record : Record) (tbl : TableId) (dbSt : Db) : Db :=
  updateTable { dbSt with authorWorks := relFor record tbl dbSt } tbl (mkRow record tbl)

/-- `model.saveModel` (model.ts lines 672-725). -/
def saveModel (record : Record) (dbSt : Db) : Except String Db :=
  match tableOf record.key with
  | Except.error e => Except.error e
  | Except.ok tbl => Except.ok (saveModelGo record tbl dbSt)

/-- An author envelope, the same envelope at a newer revision, and the
store contents used by the C7 witness. -/
def c7rec : Record :=
  ⟨r"/authors/OL1A", r"/type/author", 1, r"2020-01-01", [], []⟩

def c7rec2 : Record :=
  ⟨r"/authors/OL1A", r"/type/author", 2, r"2020-02-02", [], []⟩

def c7db1 : Db :=
  ⟨[⟨r"/type/author", r"/authors/OL1A", 1, r"2020-01-01", c7rec, none⟩], [], [], []⟩

/-! Run orchestrator: `update` (src/tasks/update.ts lines 7-39). -/

/-- The control-state store fields used by the update task. The watermark
`updateKeysTime` is a day number (`getUpdateTime` falls back to deriving it
from the editions table when the key is unset; the model takes the value as
given). -/
structure ControlStore where
  updateKeysStartTime : Option Nat
  updateKeysTime : Nat
  updateStarted : Option Nat
  updateFinished : Option Nat
  updateError : Option String
  updateKeysError : Option KeysError
  unprocessedAuthorKeys : List String
  unprocessedWorkKeys : List String
  unprocessedEditionKeys : List String
deriving DecidableEq

/-- Outcome of one `update()` run: `finished` (ran to completion), `failed`
(the discovery phase threw; the catch block recorded the error and
re-threw), or `interrupted` (the per-batch outcome trace was exhausted
mid-processing, modelling a crash — the store holds the last persisted
state). Each outcome carries the durable control store, the record-store
keys saved so far, and the processing event trace. -/
inductive RunOutcome where
  | finished (st : ControlStore) (saved : List String) (events : List PEvent)
  | failed (st : ControlStore) (saved : List String) (events : List PEvent) (e : KeysError)
  | interrupted (st : ControlStore) (saved : List String) (events : List PEvent)
deriving DecidableEq

def RunOutcome.store : RunOutcome → ControlStore
  | RunOutcome.finished st _ _ => st
  | RunOutcome.failed st _ _ _ => st
  | RunOutcome.interrupted st _ _ => st

def RunOutcome.events : RunOutcome → List PEvent
  | RunOutcome.finished _ _ evs => evs
  | RunOutcome.failed _ _ evs _ => evs
  | RunOutcome.interrupted _ _ evs => evs

def RunOutcome.isFinished : RunOutcome → Bool
  | RunOutcome.finished _ _ _ => true
  | _ => false

def RunOutcome.isFailed : RunOutcome → Bool
  | RunOutcome.failed _ _ _ _ => true
  | _ => false

def RunOutcome.isInterrupted : RunOutcome → Bool
  | RunOutcome.interrupted _ _ _ => true
  | _ => false

/-- Apply the per-day checkpoint writes of `fetchKeys` to the store, in
order: each completed day persists the three accumulated key sets
(`setStore('unprocessed_*_keys', ...)`) and then the watermark
(`saveDatetime('update_keys_time', date)`). -/
def applyWrites : ControlStore → List (Nat × KeySets) → ControlStore
  | st, [] => st
  | st, w :: ws =>
    applyWrites
      { st with
        unprocessedAuthorKeys := w.2.authorKeys
        unprocessedWorkKeys := w.2.workKeys
        unprocessedEditionKeys := w.2.editionKeys
        updateKeysTime := w.1 } ws

/-- The message stored into `update_error` by the catch block of `update`
(`error.name + ': ' + error.message`): a non-2xx or non-array page response
was thrown as `new Error('Server Error')`; a network-level failure is an
error carrying the recorded message. -/
def runErrorMessage (e : KeysError) : String :=
  match e.status with
  | some _ => r"Error: Server Error"
  | none => (r"Error: ") ++ e.error

/-- The processing half of `update` (lines 23-31): record the run-start
timestamp, clear the finish time, then drain the three queues strictly in
the order authors, works, editions, each phase running `processKeys`
against its queue; after all three, record the finish timestamp and clear
the error. A phase whose outcome trace ends before its queue is drained
leaves the run interrupted with the store at its last per-batch
checkpoint. -/
def processAll (cfg : Config) (oA oW oE : List (String → Bool)) (t0 : Nat)
    (st0 : ControlStore) (saved : List String) (keys : KeySets) : RunOutcome :=
  let st := { st0 with updateStarted := some (t0 + 1), updateFinished := none }
  let pa := processKeysRun cfg (r"author") oA
    ⟨keys.authorKeys, st.unprocessedAuthorKeys, saved, 0⟩
  let st1 := { st with unprocessedAuthorKeys := pa.1.queue }
  if pa.1.remainingKeys = [] then
    let pw := processKeysRun cfg (r"work") oW
      ⟨keys.workKeys, st1.unprocessedWorkKeys, pa.1.saved, 0⟩
    let st2 := { st1 with unprocessedWorkKeys := pw.1.queue }
    if pw.1.remainingKeys = [] then
      let pe := processKeysRun cfg (r"edition") oE
        ⟨keys.editionKeys, st2.unprocessedEditionKeys, pw.1.saved, 0⟩
      let st3 := { st2 with unprocessedEditionKeys := pe.1.queue }
      if pe.1.remainingKeys = [] then
        let st4 := { st3 with updateFinished := some (t0 + 2) }
        RunOutcome.finished { st4 with updateError := none } pe.1.saved (pa.2 ++ pw.2 ++ pe.2)
      else RunOutcome.interrupted st3 pe.1.saved (pa.2 ++ pw.2 ++ pe.2)
    else RunOutcome.interrupted st2 pw.1.saved (pa.2 ++ pw.2)
  else RunOutcome.interrupted st1 pa.1.saved pa.2

/-- `update` (update.ts lines 7-39): read the pending queues; when all three
are empty, record the discovery start timestamp and run discovery — its
failure is caught, `update_error` is populated and the run fails (the
discovery error detail was already persisted under `update_keys_error`);
its success persists the watermark as yesterday and hands the discovered
key sets to processing. When a backlog survives from a prior run,
discovery is skipped and the stored queues are processed directly. -/
def update (cfg : Config) (attempts : Nat → String → List PageResult)
    (oA oW oE : List (String → Bool)) (t0 today : Nat) (st : ControlStore)
    (saved : List String) : RunOutcome :=
  if st.unprocessedAuthorKeys = [] ∧ st.unprocessedWorkKeys = [] ∧
      st.unprocessedEditionKeys = [] then
    let st1 := { st with updateKeysStartTime := some t0 }
    match fetchKeys cfg t0 attempts st1.updateKeysTime today with
    | (writes, Except.error e) =>
      let st2 := { applyWrites st1 writes with updateKeysError := some e }
      let st3 := { st2 with updateError := some (runErrorMessage e) }
      RunOutcome.failed st3 saved [] e
    | (writes, Except.ok sets) =>
      let st2 := { applyWrites st1 writes with updateKeysTime := today - 1 }
      processAll cfg oA oW oE t0 st2 saved sets
  else
    processAll cfg oA oW oE t0 st saved
      ⟨st.unprocessedAuthorKeys, st.unprocessedWorkKeys, st.unprocessedEditionKeys⟩

/-! Lemmas and claim theorems. -/

lemma drop_length_take {α : Type} (l : List α) (n : Nat) :
    l.drop (l.take n).length = l.drop n := by
  rw [List.length_take]
  rcases Nat.le_total n l.length with h | h
  · rw [Nat.min_eq_left h]
  · rw [Nat.min_eq_right h, List.drop_eq_nil_of_le h, List.drop_eq_nil_of_le le_rfl]

/-- Normal form of a loop iteration on a non-empty work list: since the
`else` branch of the source has `failedKeys = []`, both branches update
`remainingKeys` to `drop batch.length ++ failedKeys`, and `delay` to the
cooldown exactly when more than half of the batch failed. -/
lemma processKeysStep_of_ne (cfg : Config) (type : String) (ok : String → Bool)
    (s : ProcState) (h : s.remainingKeys ≠ []) :
    processKeysStep cfg type ok s =
      (⟨s.remainingKeys.drop (s.remainingKeys.take cfg.batchSize).length ++
          updateModels ok (s.remainingKeys.take cfg.batchSize),
        saveBatchUpdate (s.remainingKeys.take cfg.batchSize).length
          (updateModels ok (s.remainingKeys.take cfg.batchSize)) s.queue,
        s.saved ++ (s.remainingKeys.take cfg.batchSize).filter (fun k => ok k),
        if (updateModels ok (s.remainingKeys.take cfg.batchSize)).length >
            (s.remainingKeys.take cfg.batchSize).length / 2 then 5 * 60 * 1000 else s.delay⟩,
      PEvent.batch type (s.remainingKeys.take cfg.batchSize)
          (updateModels ok (s.remainingKeys.take cfg.batchSize)) ::
        (if (if (updateModels ok (s.remainingKeys.take cfg.batchSize)).length >
              (s.remainingKeys.take cfg.batchSize).length / 2 then 5 * 60 * 1000 else s.delay) ≠ 0
          then [PEvent.sleep (if (updateModels ok (s.remainingKeys.take cfg.batchSize)).length >
              (s.remainingKeys.take cfg.batchSize).length / 2 then 5 * 60 * 1000 else s.delay)]
          else [])) := by
  unfold processKeysStep
  rw [if_neg h]
  by_cases hf : (updateModels ok (s.remainingKeys.take cfg.batchSize)).length ≠ 0
  · simp only [if_pos hf]
  · push_neg at hf
    have hfe : updateModels ok (s.remainingKeys.take cfg.batchSize) = [] :=
      List.eq_nil_of_length_eq_zero hf
    simp [hfe]

/-- A loop iteration keeps the in-memory work list and the persisted queue in
sync, and never loses a key: a key in the record store or the queue is still
in one of them afterwards. -/
lemma processKeysStep_preserves (cfg : Config) (type : String) (ok : String → Bool)
    (s : ProcState) (k : String) (hq : s.remainingKeys = s.queue)
    (hk : k ∈ s.saved ∨ k ∈ s.queue) :
    (processKeysStep cfg type ok s).1.remainingKeys = (processKeysStep cfg type ok s).1.queue ∧
      (k ∈ (processKeysStep cfg type ok s).1.saved ∨
        k ∈ (processKeysStep cfg type ok s).1.queue) := by
  by_cases h : s.remainingKeys = []
  · have hstep : processKeysStep cfg type ok s = (s, []) := by
      simp [processKeysStep, h]
    rw [hstep]
    exact ⟨hq, hk⟩
  · rw [processKeysStep_of_ne cfg type ok s h]
    constructor
    · show s.remainingKeys.drop (s.remainingKeys.take cfg.batchSize).length ++
          updateModels ok (s.remainingKeys.take cfg.batchSize) =
        saveBatchUpdate (s.remainingKeys.take cfg.batchSize).length
          (updateModels ok (s.remainingKeys.take cfg.batchSize)) s.queue
      rw [saveBatchUpdate, ← hq, drop_length_take]
    · rcases hk with hk | hk
      · exact Or.inl (List.mem_append_left _ hk)
      · rw [← hq] at hk
        rw [← List.take_append_drop cfg.batchSize s.remainingKeys] at hk
        rcases List.mem_append.mp hk with hk | hk
        · cases hok : ok k with
          | true =>
            exact Or.inl (List.mem_append_right _ (List.mem_filter.mpr ⟨hk, by simp [hok]⟩))
          | false =>
            exact Or.inr (List.mem_append_right _ (List.mem_filter.mpr ⟨hk, by simp [hok]⟩))
        · refine Or.inr (List.mem_append_left _ ?_)
          rw [← hq, drop_length_take]
          exact hk

/-- Over a whole run, the work list stays in sync with the persisted queue
and no key is lost. -/
lemma processKeysRun_preserves (cfg : Config) (type : String) (os : List (String → Bool))
    (s : ProcState) (k : String) (hq : s.remainingKeys = s.queue)
    (hk : k ∈ s.saved ∨ k ∈ s.queue) :
    (processKeysRun cfg type os s).1.remainingKeys = (processKeysRun cfg type os s).1.queue ∧
      (k ∈ (processKeysRun cfg type os s).1.saved ∨
        k ∈ (processKeysRun cfg type os s).1.queue) := by
  induction os generalizing s with
  | nil => exact ⟨hq, hk⟩
  | cons o os ih =>
    have h1 := processKeysStep_preserves cfg type o s k hq hk
    simpa [processKeysRun] using ih (processKeysStep cfg type o s).1 h1.1 h1.2

/-- C1: for every run of the batch processor and every sequence of per-key
fetch outcomes, every key that entered the pending key queue is, after each
batch completes, either persisted in the record store (its fetch succeeded
and it was upserted) or still present in the persisted queue (head keys
removed, failed keys re-appended at the tail by `saveBatchUpdate`); no key
is ever dropped. -/
theorem claim_c1_no_key_lost (cfg : Config) (type : String) (os : List (String → Bool))
    (keys saved0 : List String) (k : String) (hk : k ∈ keys) :
    k ∈ (processKeysRun cfg type os (processKeysInit keys saved0)).1.saved ∨
      k ∈ (processKeysRun cfg type os (processKeysInit keys saved0)).1.queue :=
  (processKeysRun_preserves cfg type os (processKeysInit keys saved0) k rfl (Or.inr hk)).2

theorem claim_c1_no_key_lost_witness :
    (r"/works/OL5W" : String) ∈ wkeys ∧
      ((r"/works/OL5W" : String) ∈
          (processKeysRun defaultConfig (r"work") [wok6] (processKeysInit wkeys [])).1.saved ∨
        (r"/works/OL5W" : String) ∈
          (processKeysRun defaultConfig (r"work") [wok6] (processKeysInit wkeys [])).1.queue) :=
  ⟨by decide,
    claim_c1_no_key_lost defaultConfig (r"work") [wok6] wkeys [] (r"/works/OL5W") (by decide)⟩

/-- An iteration whose batch fails on more than half of its keys is traced as
the batch followed by the 5-minute cooldown sleep. -/
lemma processKeysRun_cons_of_half_failed (cfg : Config) (type : String)
    (o : String → Bool) (os : List (String → Bool)) (s : ProcState)
    (h1 : s.remainingKeys ≠ [])
    (h2 : (updateModels o (s.remainingKeys.take cfg.batchSize)).length >
      (s.remainingKeys.take cfg.batchSize).length / 2) :
    (processKeysRun cfg type (o :: os) s).2 =
      PEvent.batch type (s.remainingKeys.take cfg.batchSize)
          (updateModels o (s.remainingKeys.take cfg.batchSize)) ::
        PEvent.sleep (5 * 60 * 1000) ::
          (processKeysRun cfg type os (processKeysStep cfg type o s).1).2 := by
  simp only [processKeysRun]
  rw [processKeysStep_of_ne cfg type o s h1, if_pos h2]
  simp

/-- C5: if more than half of a batch's keys failed to fetch, the processor
sleeps the 5-minute cooldown before starting the next batch: the run's
event trace continues with this batch, then the cooldown sleep, and only
then the events of the remaining batches. -/
theorem claim_c5_cooldown_after_half_failed (cfg : Config) (type : String)
    (o : String → Bool) (os : List (String → Bool)) (s : ProcState)
    (h1 : s.remainingKeys ≠ [])
    (h2 : (updateModels o (s.remainingKeys.take cfg.batchSize)).length >
      (s.remainingKeys.take cfg.batchSize).length / 2) :
    (processKeysRun cfg type (o :: os) s).2 =
      PEvent.batch type (s.remainingKeys.take cfg.batchSize)
          (updateModels o (s.remainingKeys.take cfg.batchSize)) ::
        PEvent.sleep (5 * 60 * 1000) ::
          (processKeysRun cfg type os (processKeysStep cfg type o s).1).2 :=
  processKeysRun_cons_of_half_failed cfg type o os s h1 h2

theorem claim_c5_cooldown_after_half_failed_witness :
    (processKeysInit wkeys []).remainingKeys ≠ [] ∧
      (updateModels wok6 ((processKeysInit wkeys []).remainingKeys.take
          defaultConfig.batchSize)).length >
        ((processKeysInit wkeys []).remainingKeys.take defaultConfig.batchSize).length / 2 ∧
      (processKeysRun defaultConfig (r"work") [wok6] (processKeysInit wkeys [])).2 =
        PEvent.batch (r"work")
            ((processKeysInit wkeys []).remainingKeys.take defaultConfig.batchSize)
            (updateModels wok6 ((processKeysInit wkeys []).remainingKeys.take
              defaultConfig.batchSize)) ::
          PEvent.sleep (5 * 60 * 1000) ::
            (processKeysRun defaultConfig (r"work") []
              (processKeysStep defaultConfig (r"work") wok6 (processKeysInit wkeys [])).1).2 :=
  ⟨by decide, by decide,
    claim_c5_cooldown_after_half_failed defaultConfig (r"work") wok6 [] (processKeysInit wkeys [])
      (by decide) (by decide)⟩

/-- Once the cooldown delay is set it is never reset, and every iteration of
the rest of the drain ends with the cooldown sleep. -/
lemma processKeysRun_cooldown_of_delay (cfg : Config) (type : String)
    (os : List (String → Bool)) (s : ProcState) (hd : s.delay = 5 * 60 * 1000) :
    cooldownAfterEveryBatch (processKeysRun cfg type os s).2 = true ∧
      (processKeysRun cfg type os s).1.delay = 5 * 60 * 1000 := by
  induction os generalizing s with
  | nil => exact ⟨rfl, hd⟩
  | cons o os ih =>
    by_cases h : s.remainingKeys = []
    · have hstep : processKeysStep cfg type o s = (s, []) := by
        simp [processKeysStep, h]
      have hih := ih s hd
      constructor
      · simp only [processKeysRun]
        rw [hstep]
        simpa using hih.1
      · simp only [processKeysRun]
        rw [hstep]
        exact hih.2
    · have hde : (if (updateModels o (s.remainingKeys.take cfg.batchSize)).length >
          (s.remainingKeys.take cfg.batchSize).length / 2 then 5 * 60 * 1000 else s.delay) =
          5 * 60 * 1000 := by
        rw [hd]; exact ite_self _
      constructor
      · simp only [processKeysRun]
        rw [processKeysStep_of_ne cfg type o s h]
        simp only [hde]
        simp only [cooldownAfterEveryBatch, List.cons_append, ne_eq, OfNat.ofNat_ne_zero,
          not_false_eq_true, reduceIte, List.singleton_append, beq_self_eq_true, Bool.true_and]
        exact (ih _ rfl).1
      · simp only [processKeysRun]
        rw [processKeysStep_of_ne cfg type o s h]
        simp only [hde]
        exact (ih _ rfl).2

/-- C10: once any batch has had more than half of its keys fail, the
5-minute cooldown sleep is performed after that batch and after every
subsequent batch of the drain (including batches in which no key failed):
from that batch on, every batch event of the trace is immediately followed
by the cooldown sleep. -/
theorem claim_c10_cooldown_never_reset (cfg : Config) (type : String)
    (o : String → Bool) (os : List (String → Bool)) (s : ProcState)
    (h1 : s.remainingKeys ≠ [])
    (h2 : (updateModels o (s.remainingKeys.take cfg.batchSize)).length >
      (s.remainingKeys.take cfg.batchSize).length / 2) :
    cooldownAfterEveryBatch (processKeysRun cfg type (o :: os) s).2 = true := by
  rw [processKeysRun_cons_of_half_failed cfg type o os s h1 h2]
  have hdel : (processKeysStep cfg type o s).1.delay = 5 * 60 * 1000 := by
    rw [processKeysStep_of_ne cfg type o s h1]
    exact if_pos h2
  have hrest := processKeysRun_cooldown_of_delay cfg type os (processKeysStep cfg type o s).1 hdel
  simpa [cooldownAfterEveryBatch] using hrest.1

theorem claim_c10_cooldown_never_reset_witness :
    (processKeysInit wkeys []).remainingKeys ≠ [] ∧
      (updateModels wok6 ((processKeysInit wkeys []).remainingKeys.take
          defaultConfig.batchSize)).length >
        ((processKeysInit wkeys []).remainingKeys.take defaultConfig.batchSize).length / 2 ∧
      cooldownAfterEveryBatch
        (processKeysRun defaultConfig (r"work") [wok6, fun _ => true]
          (processKeysInit wkeys [])).2 = true :=
  ⟨by decide, by decide,
    claim_c10_cooldown_never_reset defaultConfig (r"work") wok6 [fun _ => true]
      (processKeysInit wkeys []) (by decide) (by decide)⟩

/-- The checkpoint days of a discovery pass are consecutive days starting at
the first unprocessed day: always a prefix of the full range, and exactly
the full range when the pass succeeds. -/
lemma fetchKeysGo_checkpoints (cfg : Config) (now : Nat)
    (attempts : Nat → String → List PageResult) :
    ∀ n date sets writes, ∃ k, k ≤ n ∧
      (fetchKeysGo cfg now attempts n date sets writes).1.map Prod.fst =
        writes.map Prod.fst ++ List.range' date k ∧
      (∀ s1, (fetchKeysGo cfg now attempts n date sets writes).2 = Except.ok s1 → k = n) := by
  intro n
  induction n with
  | zero =>
    intro date sets writes
    exact ⟨0, Nat.le_refl 0, by simp [fetchKeysGo], fun _ _ => rfl⟩
  | succ n ih =>
    intro date sets writes
    cases hr : runKinds cfg now date attempts kinds sets with
    | error e =>
      refine ⟨0, Nat.zero_le _, ?_, ?_⟩
      · simp [fetchKeysGo, hr]
      · intro s1 hs1
        simp [fetchKeysGo, hr] at hs1
    | ok sets1 =>
      obtain ⟨k, hk, hmap, hok⟩ := ih (date + 1) sets1 (writes ++ [(date, sets1)])
      refine ⟨k + 1, Nat.succ_le_succ hk, ?_, ?_⟩
      · have : (fetchKeysGo cfg now attempts (n + 1) date sets writes).1 =
            (fetchKeysGo cfg now attempts n (date + 1) sets1 (writes ++ [(date, sets1)])).1 := by
          simp [fetchKeysGo, hr]
        rw [this, hmap, List.range'_succ]
        simp
      · intro s1 hs1
        have : (fetchKeysGo cfg now attempts (n + 1) date sets writes).2 =
            (fetchKeysGo cfg now attempts n (date + 1) sets1 (writes ++ [(date, sets1)])).2 := by
          simp [fetchKeysGo, hr]
        rw [this] at hs1
        exact congrArg Nat.succ (hok s1 hs1)

/-- With a trace on which every page request immediately reports a short
(or empty) page, every day of the range succeeds: in particular a day with
zero changes across all kinds is still completed and checkpointed. -/
lemma runKinds_empty_ok (cfg : Config) (now day : Nat) :
    ∀ ks sets, runKinds cfg now day (fun _ _ => [PageResult.ok []]) ks sets = Except.ok sets := by
  intro ks
  induction ks with
  | nil => intro sets; rfl
  | cons kind rest ih =>
    intro sets
    simp [runKinds, addChangedKeys, addChangedKeysGo, addPage, ih sets]

lemma fetchKeysGo_empty_ok (cfg : Config) (now : Nat) :
    ∀ n date sets writes,
      (fetchKeysGo cfg now (fun _ _ => [PageResult.ok []]) n date sets writes).2 =
        Except.ok sets := by
  intro n
  induction n with
  | zero => intro date sets writes; rfl
  | succ n ih =>
    intro date sets writes
    simp [fetchKeysGo, runKinds_empty_ok cfg now date kinds sets]
    exact ih (date + 1) sets (writes ++ [(date, sets)])

/-- C2: for every discovery pass, the watermark only moves forward (every
persisted checkpoint is a day strictly beyond the pre-run watermark), it
advances in whole-day steps visiting a prefix of the days
`[watermark+1, today-1]` in order with a persistence checkpoint after each
day; on a successful pass every day of the range is visited; and a pass
whose feed reports zero changed keys on every page still succeeds, hence
still advances past every day of the range. -/
theorem claim_c2_watermark_advances (cfg : Config) (now : Nat)
    (attempts : Nat → String → List PageResult) (watermark today : Nat) :
    (∃ k, k ≤ today - (watermark + 1) ∧
      (fetchKeys cfg now attempts watermark today).1.map Prod.fst =
        List.range' (watermark + 1) k) ∧
    (∀ s1, (fetchKeys cfg now attempts watermark today).2 = Except.ok s1 →
      (fetchKeys cfg now attempts watermark today).1.map Prod.fst =
        List.range' (watermark + 1) (today - (watermark + 1))) ∧
    (∀ d ∈ (fetchKeys cfg now attempts watermark today).1.map Prod.fst, watermark < d) ∧
    (fetchKeys cfg now (fun _ _ => [PageResult.ok []]) watermark today).2 =
      Except.ok ⟨[], [], []⟩ ∧
    (fetchKeys cfg now (fun _ _ => [PageResult.ok []]) watermark today).1.map Prod.fst =
      List.range' (watermark + 1) (today - (watermark + 1)) := by
  obtain ⟨k, hk, hmap, hok⟩ := fetchKeysGo_checkpoints cfg now attempts
    (today - (watermark + 1)) (watermark + 1) ⟨[], [], []⟩ []
  have hempty := fetchKeysGo_empty_ok cfg now (today - (watermark + 1)) (watermark + 1)
    (⟨[], [], []⟩ : KeySets) []
  obtain ⟨k0, hk0, hmap0, hok0⟩ := fetchKeysGo_checkpoints cfg now
    (fun _ _ => [PageResult.ok []]) (today - (watermark + 1)) (watermark + 1) ⟨[], [], []⟩ []
  refine ⟨⟨k, hk, by simpa using hmap⟩, ?_, ?_, ?_, ?_⟩
  · intro s1 hs1
    have hkn := hok s1 hs1
    subst hkn
    simpa using hmap
  · intro d hd
    rw [show (fetchKeys cfg now attempts watermark today).1.map Prod.fst =
      List.range' (watermark + 1) k from by simpa using hmap] at hd
    have := (List.mem_range'_1.mp hd).1
    omega
  · exact hempty
  · have hkn := hok0 ⟨[], [], []⟩ hempty
    subst hkn
    simpa using hmap0

theorem claim_c2_watermark_advances_witness :
    (fetchKeys defaultConfig 0 (fun _ _ => [PageResult.ok []]) 3 6).2 =
        Except.ok ⟨[], [], []⟩ ∧
      (fetchKeys defaultConfig 0 (fun _ _ => [PageResult.ok []]) 3 6).1.map Prod.fst =
        List.range' 4 2 :=
  ⟨(claim_c2_watermark_advances defaultConfig 0 (fun _ _ => [PageResult.ok []]) 3 6).2.2.2.1,
    (claim_c2_watermark_advances defaultConfig 0 (fun _ _ => [PageResult.ok []]) 3 6).2.1
      ⟨[], [], []⟩ rfl⟩

/-- Page-count bound of the pagination loop: starting from offset `1000 * j`
(with `j ≤ 11`), a successful crawl of one day and kind fetches at most
`11 - j` further pages, because the loop guard admits offsets 0, 1000, ...,
10000 only. -/
lemma addChangedKeysGo_pages_le (cfg : Config) (now day : Nat) (kind : String) :
    ∀ (attempts : List PageResult) (j retries pages : Nat) (sets s : KeySets) (p : Nat),
      j ≤ 11 →
      addChangedKeysGo cfg now day kind attempts (1000 * j) retries pages sets =
        Except.ok (s, p) →
      p ≤ pages + (11 - j) := by
  intro attempts
  induction attempts with
  | nil =>
    intro j retries pages sets s p hj h
    rw [addChangedKeysGo] at h
    by_cases hoff : 1000 * j ≤ 10000
    · rw [if_pos hoff] at h
      simp at h
    · rw [if_neg hoff] at h
      simp at h
      omega
  | cons a rest ih =>
    intro j retries pages sets s p hj h
    by_cases hoff : 1000 * j ≤ 10000
    · have hj10 : j ≤ 10 := by omega
      cases a with
      | ok data =>
        rw [addChangedKeysGo, if_pos hoff] at h
        by_cases hlen : data.length < 1000
        · rw [if_pos hlen] at h
          simp at h
          omega
        · rw [if_neg hlen] at h
          have he : 1000 * j + 1000 = 1000 * (j + 1) := by ring
          rw [he] at h
          have := ih (j + 1) 0 (pages + 1) (addPage sets data) s p (by omega) h
          omega
      | err status msg =>
        rw [addChangedKeysGo, if_pos hoff] at h
        by_cases hre : retries + 1 > cfg.retries
        · rw [if_pos hre] at h
          simp at h
        · rw [if_neg hre] at h
          exact ih j (retries + 1) pages sets s p hj h
    · cases a with
      | ok data =>
        rw [addChangedKeysGo, if_neg hoff] at h
        simp at h
        omega
      | err status msg =>
        rw [addChangedKeysGo, if_neg hoff] at h
        simp at h
        omega

/-- C4 (amended): for every day and change kind, a successful crawl of the
recent-changes feed fetches at most 11 pages (offsets 0, 1000, ..., 10000;
up to 11000 entries), stopping at the hard cap even if every page returns
the full 1000-entry limit. (The claim's figure of 10 pages is off by one:
the loop guard is `offset <= 10000`, which admits 11 page offsets.) -/
theorem claim_c4_page_cap (cfg : Config) (now day : Nat) (kind : String)
    (attempts : List PageResult) (sets s : KeySets) (p : Nat)
    (h : addChangedKeys cfg now day kind attempts sets = Except.ok (s, p)) : p ≤ 11 := by
  have hb := addChangedKeysGo_pages_le cfg now day kind attempts 0 0 0 sets s p
    (by omega) (by simpa [addChangedKeys] using h)
  simpa using hb

theorem claim_c4_page_cap_witness :
    addChangedKeys defaultConfig 0 0 (r"update") [PageResult.ok []] ⟨[], [], []⟩ =
        Except.ok (⟨[], [], []⟩, 1) ∧ 1 ≤ 11 :=
  ⟨rfl, claim_c4_page_cap defaultConfig 0 0 (r"update") [PageResult.ok []] ⟨[], [], []⟩
    ⟨[], [], []⟩ 1 rfl⟩

lemma addPage_replicate_nil (sets : KeySets) (m : Nat) :
    addPage sets (List.replicate m ([] : List String)) = sets := by
  induction m with
  | zero => rfl
  | succ m ih =>
    rw [List.replicate_succ]
    exact ih

/-- With every page returning the full 1000-entry limit, the crawl starting
at offset `1000 * j` fetches exactly the `11 - j` remaining page offsets and
then stops at the hard cap. -/
lemma addChangedKeysGo_full_pages (cfg : Config) (now day : Nat) (kind : String) :
    ∀ (n j retries pages : Nat) (sets : KeySets), j + n = 11 →
      addChangedKeysGo cfg now day kind
          (List.replicate n (PageResult.ok (List.replicate 1000 [])))
          (1000 * j) retries pages sets =
        Except.ok (sets, pages + n) := by
  intro n
  induction n with
  | zero =>
    intro j retries pages sets hj
    rw [List.replicate_zero, addChangedKeysGo, if_neg (by omega), Nat.add_zero]
  | succ n ih =>
    intro j retries pages sets hj
    rw [List.replicate_succ, addChangedKeysGo, if_pos (by omega),
      if_neg (by rw [List.length_replicate]; omega), addPage_replicate_nil]
    have he : 1000 * j + 1000 = 1000 * (j + 1) := by ring
    rw [he, ih (j + 1) 0 (pages + 1) sets (by omega)]
    have ha : pages + 1 + n = pages + (n + 1) := by omega
    rw [ha]

/-- C4 counterexample: with every page returning the full 1000-entry limit,
the crawler fetches 11 pages (11000 entries), not 10: the claim's cap of 10
pages (10000 entries) is exceeded. -/
theorem claim_c4_counterexample :
    addChangedKeys defaultConfig 0 0 (r"update")
        (List.replicate 11 (PageResult.ok (List.replicate 1000 []))) ⟨[], [], []⟩ =
      Except.ok (⟨[], [], []⟩, 11) ∧ 10 < 11 := by
  constructor
  · have hfull := addChangedKeysGo_full_pages defaultConfig 0 0 (r"update") 11 0 0 0
      ⟨[], [], []⟩ (by omega)
    rw [Nat.mul_zero] at hfull
    rw [Nat.zero_add] at hfull
    exact hfull
  · omega

lemma upsertRow_any_self (t : List Row) (r : Row) :
    (upsertRow t r).any (fun x => x.key == r.key) = true := by
  unfold upsertRow
  by_cases h : t.any (fun x => x.key == r.key) = true
  · rw [if_pos h]
    rcases List.any_eq_true.mp h with ⟨x, hx, hxk⟩
    refine List.any_eq_true.mpr ⟨r, ?_, by simp⟩
    refine List.mem_map.mpr ⟨x, hx, ?_⟩
    simp [hxk]
  · rw [if_neg h]
    exact List.any_eq_true.mpr ⟨r, by simp, by simp⟩

lemma map_replace_of_not_any (t : List Row) (r : Row)
    (h : ¬t.any (fun x => x.key == r.key) = true) :
    t.map (fun x => if x.key == r.key then r else x) = t := by
  induction t with
  | nil => rfl
  | cons x xs ih =>
    rw [List.any_cons] at h
    have h1 : ¬(x.key == r.key) = true := fun hc => h (by rw [Bool.or_eq_true]; exact Or.inl hc)
    have h2 : ¬(xs.any fun x => x.key == r.key) = true :=
      fun hc => h (by rw [Bool.or_eq_true]; exact Or.inr hc)
    rw [List.map_cons, if_neg h1, ih h2]

lemma upsertRow_idem (t : List Row) (r : Row) :
    upsertRow (upsertRow t r) r = upsertRow t r := by
  have hany := upsertRow_any_self t r
  rw [upsertRow, if_pos hany]
  by_cases h : t.any (fun x => x.key == r.key) = true
  · rw [upsertRow, if_pos h, List.map_map]
    refine List.map_congr_left ?_
    intro x _
    by_cases hx : (x.key == r.key) = true
    · simp [Function.comp, hx]
    · simp [Function.comp, hx]
  · rw [upsertRow, if_neg h, List.map_append, map_replace_of_not_any t r h]
    simp

lemma upsertRow_length_of_any (t : List Row) (r : Row)
    (h : t.any (fun x => x.key == r.key) = true) :
    (upsertRow t r).length = t.length := by
  rw [upsertRow, if_pos h, List.length_map]

lemma find?_map_replace (r : Row) :
    ∀ t : List Row, t.any (fun x => x.key == r.key) = true →
      (t.map (fun x => if x.key == r.key then r else x)).find?
        (fun x => x.key == r.key) = some r := by
  intro t
  induction t with
  | nil => intro h; simp at h
  | cons x xs ih =>
    intro h
    by_cases hx : (x.key == r.key) = true
    · rw [List.map_cons, if_pos hx]
      exact List.find?_cons_of_pos _ (by simp)
    · rw [List.map_cons, if_neg hx, List.find?_cons_of_neg _ (by simpa using hx)]
      rw [List.any_cons, Bool.or_eq_true] at h
      rcases h with h | h
      · exact absurd h hx
      · exact ih h

lemma upsertRow_find_of_any (t : List Row) (r : Row)
    (h : t.any (fun x => x.key == r.key) = true) :
    (upsertRow t r).find? (fun x => x.key == r.key) = some r := by
  rw [upsertRow, if_pos h]
  exact find?_map_replace r t h

lemma insertAuthorWork_mem (rel : List (String × String)) (a w : String) :
    (a, w) ∈ insertAuthorWork rel a w := by
  unfold insertAuthorWork
  by_cases h : (a, w) ∈ rel
  · rw [if_pos h]; exact h
  · rw [if_neg h]; simp

lemma insertAuthorWork_of_mem (rel : List (String × String)) (a w : String)
    (h : (a, w) ∈ rel) : insertAuthorWork rel a w = rel :=
  if_pos h

lemma updateTable_authorWorks (dbSt : Db) (tbl : TableId) (row : Row) :
    (updateTable dbSt tbl row).authorWorks = dbSt.authorWorks := by
  cases tbl <;> rfl

lemma tableRows_updateTable_self (dbSt : Db) (tbl : TableId) (row : Row) :
    (updateTable dbSt tbl row).tableRows tbl = upsertRow (dbSt.tableRows tbl) row := by
  cases tbl <;> rfl

lemma tableRows_setRel (dbSt : Db) (rel : List (String × String)) (t : TableId) :
    ({ dbSt with authorWorks := rel } : Db).tableRows t = dbSt.tableRows t := by
  cases t <;> rfl

lemma saveModelGo_tableRows_self (record : Record) (tbl : TableId) (dbSt : Db) :
    (saveModelGo record tbl dbSt).tableRows tbl =
      upsertRow (dbSt.tableRows tbl) (mkRow record tbl) := by
  unfold saveModelGo
  rw [tableRows_updateTable_self, tableRows_setRel]

lemma saveModelGo_authorWorks (record : Record) (tbl : TableId) (dbSt : Db) :
    (saveModelGo record tbl dbSt).authorWorks = relFor record tbl dbSt := by
  unfold saveModelGo
  rw [updateTable_authorWorks]

/-- The relation-table write of `saveModel` is idempotent: if the pair it
would insert is already present, the relation is unchanged. -/
lemma relFor_eq_self (record : Record) (tbl : TableId) (db2 : Db)
    (h : ∀ a, tbl = TableId.works → record.authors.head? = some a → a ≠ "" →
      (a, record.key) ∈ db2.authorWorks) :
    relFor record tbl db2 = db2.authorWorks := by
  unfold relFor
  by_cases hw : tbl = TableId.works
  · rw [if_pos hw]
    cases hr : record.authors.head? with
    | none => rfl
    | some a =>
      show (if a = "" then db2.authorWorks
        else insertAuthorWork db2.authorWorks a record.key) = db2.authorWorks
      by_cases ha : a = ""
      · rw [if_pos ha]
      · rw [if_neg ha]
        exact insertAuthorWork_of_mem _ _ _ (h a hw hr ha)
  · rw [if_neg hw]

lemma relFor_saveModelGo (record : Record) (tbl : TableId) (dbSt : Db) :
    relFor record tbl (saveModelGo record tbl dbSt) = (saveModelGo record tbl dbSt).authorWorks := by
  apply relFor_eq_self
  intro a hw hr ha
  rw [saveModelGo_authorWorks]
  unfold relFor
  rw [if_pos hw, hr]
  show (a, record.key) ∈
    (if a = "" then dbSt.authorWorks else insertAuthorWork dbSt.authorWorks a record.key)
  rw [if_neg ha]
  exact insertAuthorWork_mem _ _ _

lemma saveModelGo_idem (record : Record) (tbl : TableId) (dbSt : Db) :
    saveModelGo record tbl (saveModelGo record tbl dbSt) = saveModelGo record tbl dbSt := by
  have hrel := relFor_saveModelGo record tbl dbSt
  cases tbl with
  | authors =>
    show updateTable _ TableId.authors _ = _
    rw [updateTable]
    have hrows : ({ saveModelGo record TableId.authors dbSt with
        authorWorks := relFor record TableId.authors (saveModelGo record TableId.authors dbSt) } :
          Db).authors = upsertRow dbSt.authors (mkRow record TableId.authors) := by
      show (saveModelGo record TableId.authors dbSt).authors = _
      exact saveModelGo_tableRows_self record TableId.authors dbSt
    rw [hrows, hrel, upsertRow_idem]
    show ({ saveModelGo record TableId.authors dbSt with
      authors := upsertRow dbSt.authors (mkRow record TableId.authors) } : Db) = _
    rw [show upsertRow dbSt.authors (mkRow record TableId.authors) =
      (saveModelGo record TableId.authors dbSt).authors from
        (saveModelGo_tableRows_self record TableId.authors dbSt).symm]
  | works =>
    show updateTable _ TableId.works _ = _
    rw [updateTable]
    have hrows : ({ saveModelGo record TableId.works dbSt with
        authorWorks := relFor record TableId.works (saveModelGo record TableId.works dbSt) } :
          Db).works = upsertRow dbSt.works (mkRow record TableId.works) := by
      show (saveModelGo record TableId.works dbSt).works = _
      exact saveModelGo_tableRows_self record TableId.works dbSt
    rw [hrows, hrel, upsertRow_idem]
    show ({ saveModelGo record TableId.works dbSt with
      works := upsertRow dbSt.works (mkRow record TableId.works) } : Db) = _
    rw [show upsertRow dbSt.works (mkRow record TableId.works) =
      (saveModelGo record TableId.works dbSt).works from
        (saveModelGo_tableRows_self record TableId.works dbSt).symm]
  | editions =>
    show updateTable _ TableId.editions _ = _
    rw [updateTable]
    have hrows : ({ saveModelGo record TableId.editions dbSt with
        authorWorks := relFor record TableId.editions (saveModelGo record TableId.editions dbSt) } :
          Db).editions = upsertRow dbSt.editions (mkRow record TableId.editions) := by
      show (saveModelGo record TableId.editions dbSt).editions = _
      exact saveModelGo_tableRows_self record TableId.editions dbSt
    rw [hrows, hrel, upsertRow_idem]
    show ({ saveModelGo record TableId.editions dbSt with
      editions := upsertRow dbSt.editions (mkRow record TableId.editions) } : Db) = _
    rw [show upsertRow dbSt.editions (mkRow record TableId.editions) =
      (saveModelGo record TableId.editions dbSt).editions from
        (saveModelGo_tableRows_self record TableId.editions dbSt).symm]

lemma tableRows_updateTable_ne (dbSt : Db) (tbl : TableId) (row : Row) (t : TableId)
    (h : t ≠ tbl) : (updateTable dbSt tbl row).tableRows t = dbSt.tableRows t := by
  cases tbl <;> cases t <;> first | rfl | exact absurd rfl h

lemma saveModelGo_tableRows_ne (record : Record) (tbl : TableId) (dbSt : Db) (t : TableId)
    (h : t ≠ tbl) : (saveModelGo record tbl dbSt).tableRows t = dbSt.tableRows t := by
  unfold saveModelGo
  rw [tableRows_updateTable_ne _ _ _ _ h, tableRows_setRel]

lemma saveModel_of_tableOf (record : Record) (dbSt : Db) (tbl : TableId)
    (ht : tableOf record.key = Except.ok tbl) :
    saveModel record dbSt = Except.ok (saveModelGo record tbl dbSt) := by
  unfold saveModel
  rw [ht]

lemma saveModel_of_tableOf_error (record : Record) (dbSt : Db) (e : String)
    (ht : tableOf record.key = Except.error e) :
    saveModel record dbSt = Except.error e := by
  unfold saveModel
  rw [ht]

/-- C7: upserting the same Raw Record Envelope twice (same key, same
revision) leaves the stored state unchanged after the second write; and
re-writing the same key (in particular with a newer revision) succeeds,
changes no table's row count, and the stored row under that key is the new
envelope's row — a full replacement, not an appended second row. -/
theorem claim_c7_upsert_idempotent_and_replacing (record record' : Record) (dbSt db1 : Db)
    (h : saveModel record dbSt = Except.ok db1) (hk : record'.key = record.key) :
    saveModel record db1 = Except.ok db1 ∧
      ∃ tbl db2, tableOf record.key = Except.ok tbl ∧
        saveModel record' db1 = Except.ok db2 ∧
        (∀ t, (db2.tableRows t).length = (db1.tableRows t).length) ∧
        (db2.tableRows tbl).find? (fun x => x.key == record.key) = some (mkRow record' tbl) := by
  cases ht : tableOf record.key with
  | error e =>
    rw [saveModel_of_tableOf_error record dbSt e ht] at h
    simp at h
  | ok tbl =>
    rw [saveModel_of_tableOf record dbSt tbl ht] at h
    injection h with h
    subst h
    have ht' : tableOf record'.key = Except.ok tbl := by rw [hk]; exact ht
    have hany : ((saveModelGo record tbl dbSt).tableRows tbl).any
        (fun x => x.key == record.key) = true := by
      rw [saveModelGo_tableRows_self]
      exact upsertRow_any_self _ _
    refine ⟨?_, tbl, saveModelGo record' tbl (saveModelGo record tbl dbSt), rfl, ?_, ?_, ?_⟩
    · rw [saveModel_of_tableOf record _ tbl ht, saveModelGo_idem]
    · exact saveModel_of_tableOf record' _ tbl ht'
    · intro t
      by_cases htt : t = tbl
      · subst htt
        rw [saveModelGo_tableRows_self]
        apply upsertRow_length_of_any
        rw [show (mkRow record' t).key = record.key from hk]
        exact hany
      · rw [saveModelGo_tableRows_ne record' tbl _ t htt]
    · rw [saveModelGo_tableRows_self]
      rw [show record.key = (mkRow record' tbl).key from hk.symm]
      apply upsertRow_find_of_any
      rw [show (mkRow record' tbl).key = record.key from hk]
      exact hany

theorem claim_c7_upsert_idempotent_and_replacing_witness :
    saveModel c7rec ⟨[], [], [], []⟩ = Except.ok c7db1 ∧ c7rec2.key = c7rec.key ∧
      (saveModel c7rec c7db1 = Except.ok c7db1 ∧
        ∃ tbl db2, tableOf c7rec.key = Except.ok tbl ∧
          saveModel c7rec2 c7db1 = Except.ok db2 ∧
          (∀ t, (db2.tableRows t).length = (c7db1.tableRows t).length) ∧
          (db2.tableRows tbl).find? (fun x => x.key == c7rec.key) = some (mkRow c7rec2 tbl)) :=
  ⟨rfl, rfl, claim_c7_upsert_idempotent_and_replacing c7rec c7rec2 ⟨[], [], [], []⟩ c7db1 rfl rfl⟩

/-- C9 (amended): an envelope classified as an edition is stored with a
`work_key` column equal to its first listed work reference when that
reference carries a key, and null (`none`) otherwise — the source writes
`record.works?.[0]?.key ?? null`, so the parent work reference is not
always non-null. -/
theorem claim_c9_edition_work_key (record : Record) (dbSt db1 : Db)
    (ht : tableOf record.key = Except.ok TableId.editions)
    (h : saveModel record dbSt = Except.ok db1) :
    db1.editions = upsertRow dbSt.editions (mkRow record TableId.editions) ∧
      (mkRow record TableId.editions).workKey = record.works.head?.bind id := by
  constructor
  · rw [saveModel_of_tableOf record dbSt TableId.editions ht] at h
    injection h with h
    rw [← h]
    rfl
  · rfl

theorem claim_c9_edition_work_key_witness :
    tableOf (r"/books/OL2M") = Except.ok TableId.editions ∧
      saveModel ⟨r"/books/OL2M", r"/type/edition", 1, r"2021", [], [some (r"/works/OL3W")]⟩
          ⟨[], [], [], []⟩ =
        Except.ok ⟨[], [],
          [⟨r"/type/edition", r"/books/OL2M", 1, r"2021",
            ⟨r"/books/OL2M", r"/type/edition", 1, r"2021", [], [some (r"/works/OL3W")]⟩,
            some (r"/works/OL3W")⟩], []⟩ ∧
      ((⟨[], [],
          [⟨r"/type/edition", r"/books/OL2M", 1, r"2021",
            ⟨r"/books/OL2M", r"/type/edition", 1, r"2021", [], [some (r"/works/OL3W")]⟩,
            some (r"/works/OL3W")⟩], []⟩ : Db).editions =
        upsertRow ([] : List Row)
          (mkRow ⟨r"/books/OL2M", r"/type/edition", 1, r"2021", [], [some (r"/works/OL3W")]⟩
            TableId.editions) ∧
        (mkRow ⟨r"/books/OL2M", r"/type/edition", 1, r"2021", [], [some (r"/works/OL3W")]⟩
            TableId.editions).workKey =
          ([some (r"/works/OL3W")] : List (Option String)).head?.bind id) :=
  ⟨rfl, rfl,
    claim_c9_edition_work_key
      ⟨r"/books/OL2M", r"/type/edition", 1, r"2021", [], [some (r"/works/OL3W")]⟩
      ⟨[], [], [], []⟩ _ rfl rfl⟩

/-- C9 counterexample: an edition envelope listing no work reference is
stored with a null (`none`) `work_key`: the stored edition row does not
always record a non-null parent work reference. -/
theorem claim_c9_counterexample :
    saveModel ⟨r"/books/OL1M", r"/type/edition", 1, r"2020", [], []⟩ ⟨[], [], [], []⟩ =
        Except.ok ⟨[], [],
          [⟨r"/type/edition", r"/books/OL1M", 1, r"2020",
            ⟨r"/books/OL1M", r"/type/edition", 1, r"2020", [], []⟩, none⟩], []⟩ ∧
      (⟨[], [],
          [⟨r"/type/edition", r"/books/OL1M", 1, r"2020",
            ⟨r"/books/OL1M", r"/type/edition", 1, r"2020", [], []⟩, none⟩], []⟩ : Db).editions.map
        Row.workKey = [none] :=
  ⟨rfl, rfl⟩

lemma applyWrites_updateKeysTime :
    ∀ (writes : List (Nat × KeySets)) (st : ControlStore),
      (applyWrites st writes).updateKeysTime = (writes.map Prod.fst).getLastD st.updateKeysTime := by
  intro writes
  induction writes with
  | nil => intro st; rfl
  | cons w ws ih =>
    intro st
    rw [applyWrites, ih, List.map_cons, List.getLastD_cons]

/-- The checkpoint writes of discovery touch only the queues and the
watermark. -/
lemma applyWrites_fixed :
    ∀ (writes : List (Nat × KeySets)) (st : ControlStore),
      (applyWrites st writes).updateKeysStartTime = st.updateKeysStartTime ∧
      (applyWrites st writes).updateStarted = st.updateStarted ∧
      (applyWrites st writes).updateFinished = st.updateFinished ∧
      (applyWrites st writes).updateError = st.updateError ∧
      (applyWrites st writes).updateKeysError = st.updateKeysError := by
  intro writes
  induction writes with
  | nil => intro st; exact ⟨rfl, rfl, rfl, rfl, rfl⟩
  | cons w ws ih =>
    intro st
    rw [applyWrites]
    exact ih _

lemma applyWrites_queues_of_getLast :
    ∀ (writes : List (Nat × KeySets)) (st : ControlStore) (d : Nat) (ksets : KeySets),
      writes.getLast? = some (d, ksets) →
      (applyWrites st writes).unprocessedAuthorKeys = ksets.authorKeys ∧
      (applyWrites st writes).unprocessedWorkKeys = ksets.workKeys ∧
      (applyWrites st writes).unprocessedEditionKeys = ksets.editionKeys := by
  intro writes
  induction writes with
  | nil => intro st d ksets h; simp at h
  | cons w ws ih =>
    intro st d ksets h
    cases ws with
    | nil =>
      simp at h
      rw [applyWrites, applyWrites]
      subst h
      exact ⟨rfl, rfl, rfl⟩
    | cons w2 ws2 =>
      rw [List.getLast?_cons_cons] at h
      rw [applyWrites]
      exact ih _ d ksets h

/-- On success the final key sets of the day loop are exactly the last
persisted snapshot (or the unchanged input when no day was processed). -/
lemma fetchKeysGo_ok_writes (cfg : Config) (now : Nat)
    (attempts : Nat → String → List PageResult) :
    ∀ (n date : Nat) (sets : KeySets) (writes writes1 : List (Nat × KeySets)) (sets1 : KeySets),
      fetchKeysGo cfg now attempts n date sets writes = (writes1, Except.ok sets1) →
      (writes1 = writes ∧ sets1 = sets) ∨ (∃ d, writes1.getLast? = some (d, sets1)) := by
  intro n
  induction n with
  | zero =>
    intro date sets writes writes1 sets1 h
    rw [fetchKeysGo] at h
    injection h with h1 h2
    injection h2 with h2
    exact Or.inl ⟨h1.symm, h2.symm⟩
  | succ n ih =>
    intro date sets writes writes1 sets1 h
    rw [fetchKeysGo] at h
    cases hr : runKinds cfg now date attempts kinds sets with
    | error e => rw [hr] at h; simp at h
    | ok s2 =>
      rw [hr] at h
      rcases ih (date + 1) s2 (writes ++ [(date, s2)]) writes1 sets1 h with ⟨hw, hs⟩ | ⟨d, hd⟩
      · subst hs
        rw [hw, List.getLast?_concat]
        exact Or.inr ⟨date, rfl⟩
      · exact Or.inr ⟨d, hd⟩

lemma processKeysStep_sync (cfg : Config) (type : String) (ok : String → Bool)
    (s : ProcState) (hq : s.remainingKeys = s.queue) :
    (processKeysStep cfg type ok s).1.remainingKeys = (processKeysStep cfg type ok s).1.queue := by
  by_cases h : s.remainingKeys = []
  · have hstep : processKeysStep cfg type ok s = (s, []) := by
      simp [processKeysStep, h]
    rw [hstep]
    exact hq
  · rw [processKeysStep_of_ne cfg type ok s h]
    show s.remainingKeys.drop (s.remainingKeys.take cfg.batchSize).length ++
        updateModels ok (s.remainingKeys.take cfg.batchSize) =
      saveBatchUpdate (s.remainingKeys.take cfg.batchSize).length
        (updateModels ok (s.remainingKeys.take cfg.batchSize)) s.queue
    rw [saveBatchUpdate, ← hq, drop_length_take]

lemma processKeysRun_sync (cfg : Config) (type : String) (os : List (String → Bool)) :
    ∀ s : ProcState, s.remainingKeys = s.queue →
      (processKeysRun cfg type os s).1.remainingKeys =
        (processKeysRun cfg type os s).1.queue := by
  induction os with
  | nil => intro s hq; exact hq
  | cons o os ih =>
    intro s hq
    simp only [processKeysRun]
    exact ih _ (processKeysStep_sync cfg type o s hq)

/-- Every batch event a `processKeys` run emits is tagged with its own
entity type. -/
lemma processKeysRun_events_type (cfg : Config) (type : String) (os : List (String → Bool)) :
    ∀ s : ProcState, ∀ ev ∈ (processKeysRun cfg type os s).2,
      ∀ t ks f, ev = PEvent.batch t ks f → t = type := by
  induction os with
  | nil => intro s ev hev; simp [processKeysRun] at hev
  | cons o os ih =>
    intro s ev hev t ks f hevb
    simp only [processKeysRun, List.mem_append] at hev
    rcases hev with hev | hev
    · by_cases h : s.remainingKeys = []
      · have hstep : processKeysStep cfg type o s = (s, []) := by
          simp [processKeysStep, h]
        rw [hstep] at hev
        simp at hev
      · rw [processKeysStep_of_ne cfg type o s h] at hev
        simp only [List.mem_cons] at hev
        rcases hev with rfl | hev
        · injection hevb with h1 h2 h3
          exact h1.symm
        · by_cases hc : (if (updateModels o (s.remainingKeys.take cfg.batchSize)).length >
              (s.remainingKeys.take cfg.batchSize).length / 2 then 5 * 60 * 1000 else
                s.delay) ≠ 0
          · rw [if_pos hc] at hev
            simp at hev
            subst hev
            cases hevb
          · rw [if_neg hc] at hev
            simp at hev
    · exact ih _ ev hev t ks f hevb

lemma processAll_not_failed (cfg : Config) (oA oW oE : List (String → Bool)) (t0 : Nat)
    (st0 : ControlStore) (saved : List String) (keys : KeySets) :
    (processAll cfg oA oW oE t0 st0 saved keys).isFailed = false := by
  simp only [processAll]
  split
  · split
    · split
      · rfl
      · rfl
    · rfl
  · rfl

/-- Whatever the processing phases do, they never touch the discovery
fields, and the run-start timestamp they record is `t0 + 1`. -/
lemma processAll_store_const (cfg : Config) (oA oW oE : List (String → Bool)) (t0 : Nat)
    (st0 : ControlStore) (saved : List String) (keys : KeySets) :
    (processAll cfg oA oW oE t0 st0 saved keys).store.updateKeysStartTime =
        st0.updateKeysStartTime ∧
      (processAll cfg oA oW oE t0 st0 saved keys).store.updateKeysTime = st0.updateKeysTime ∧
      (processAll cfg oA oW oE t0 st0 saved keys).store.updateKeysError = st0.updateKeysError ∧
      (processAll cfg oA oW oE t0 st0 saved keys).store.updateStarted = some (t0 + 1) := by
  simp only [processAll]
  split
  · split
    · split
      · exact ⟨rfl, rfl, rfl, rfl⟩
      · exact ⟨rfl, rfl, rfl, rfl⟩
    · exact ⟨rfl, rfl, rfl, rfl⟩
  · exact ⟨rfl, rfl, rfl, rfl⟩

/-- A finished run has recorded the finish timestamp and cleared the error
(and its run-start timestamp stands). -/
lemma processAll_finished_fields (cfg : Config) (oA oW oE : List (String → Bool)) (t0 : Nat)
    (st0 : ControlStore) (saved : List String) (keys : KeySets)
    (stf : ControlStore) (sv : List String) (evs : List PEvent)
    (h : processAll cfg oA oW oE t0 st0 saved keys = RunOutcome.finished stf sv evs) :
    stf.updateError = none ∧ stf.updateFinished = some (t0 + 2) ∧
      stf.updateStarted = some (t0 + 1) := by
  simp only [processAll] at h
  split at h
  · split at h
    · split at h
      · injection h with h1 h2 h3
        subst h1
        exact ⟨rfl, rfl, rfl⟩
      · cases h
    · cases h
  · cases h

/-- When each phase is handed the same list that is persisted as its queue,
a finished run has drained all three persisted queues. -/
lemma processAll_finished_queues (cfg : Config) (oA oW oE : List (String → Bool)) (t0 : Nat)
    (st0 : ControlStore) (saved : List String) (keys : KeySets)
    (stf : ControlStore) (sv : List String) (evs : List PEvent)
    (hA : keys.authorKeys = st0.unprocessedAuthorKeys)
    (hW : keys.workKeys = st0.unprocessedWorkKeys)
    (hE : keys.editionKeys = st0.unprocessedEditionKeys)
    (h : processAll cfg oA oW oE t0 st0 saved keys = RunOutcome.finished stf sv evs) :
    stf.unprocessedAuthorKeys = [] ∧ stf.unprocessedWorkKeys = [] ∧
      stf.unprocessedEditionKeys = [] := by
  simp only [processAll] at h
  split at h
  · rename_i h1
    split at h
    · rename_i h2
      split at h
      · rename_i h3
        injection h with hst hsv hevs
        subst hst
        refine ⟨?_, ?_, ?_⟩
        · show (processKeysRun cfg (r"author") oA
            ⟨keys.authorKeys, st0.unprocessedAuthorKeys, saved, 0⟩).1.queue = []
          rw [← processKeysRun_sync cfg (r"author") oA _ hA]
          exact h1
        · show (processKeysRun cfg (r"work") oW
            ⟨keys.workKeys, st0.unprocessedWorkKeys,
              (processKeysRun cfg (r"author") oA
                ⟨keys.authorKeys, st0.unprocessedAuthorKeys, saved, 0⟩).1.saved, 0⟩).1.queue = []
          rw [← processKeysRun_sync cfg (r"work") oW _ hW]
          exact h2
        · show (processKeysRun cfg (r"edition") oE
            ⟨keys.editionKeys, st0.unprocessedEditionKeys,
              (processKeysRun cfg (r"work") oW
                ⟨keys.workKeys, st0.unprocessedWorkKeys,
                  (processKeysRun cfg (r"author") oA
                    ⟨keys.authorKeys, st0.unprocessedAuthorKeys, saved, 0⟩).1.saved,
                  0⟩).1.saved, 0⟩).1.queue = []
          rw [← processKeysRun_sync cfg (r"edition") oE _ hE]
          exact h3
      · cases h
    · cases h
  · cases h

/-- The processing trace of a run splits into an author segment, then a
work segment, then an edition segment, each containing only its own
phase's batch events. -/
lemma processAll_events_split (cfg : Config) (oA oW oE : List (String → Bool)) (t0 : Nat)
    (st0 : ControlStore) (saved : List String) (keys : KeySets) :
    ∃ ea ew ee,
      (processAll cfg oA oW oE t0 st0 saved keys).events = ea ++ ew ++ ee ∧
      (∀ ev ∈ ea, ∀ t ks f, ev = PEvent.batch t ks f → t = (r"author")) ∧
      (∀ ev ∈ ew, ∀ t ks f, ev = PEvent.batch t ks f → t = (r"work")) ∧
      (∀ ev ∈ ee, ∀ t ks f, ev = PEvent.batch t ks f → t = (r"edition")) := by
  simp only [processAll]
  split
  · split
    · split
      · refine ⟨_, _, _, rfl, ?_, ?_, ?_⟩
        · exact processKeysRun_events_type cfg (r"author") oA _
        · exact processKeysRun_events_type cfg (r"work") oW _
        · exact processKeysRun_events_type cfg (r"edition") oE _
      · refine ⟨_, _, _, rfl, ?_, ?_, ?_⟩
        · exact processKeysRun_events_type cfg (r"author") oA _
        · exact processKeysRun_events_type cfg (r"work") oW _
        · exact processKeysRun_events_type cfg (r"edition") oE _
    · refine ⟨_, _, [], (List.append_nil _).symm, ?_, ?_, ?_⟩
      · exact processKeysRun_events_type cfg (r"author") oA _
      · exact processKeysRun_events_type cfg (r"work") oW _
      · exact fun ev h => absurd h (List.not_mem_nil ev)
  · refine ⟨_, [], [], ((List.append_nil _).trans (List.append_nil _)).symm, ?_, ?_, ?_⟩
    · exact processKeysRun_events_type cfg (r"author") oA _
    · exact fun ev h => absurd h (List.not_mem_nil ev)
    · exact fun ev h => absurd h (List.not_mem_nil ev)

/-- Consecutive page failures beyond the retry bound abort the crawl at
once, with the failure detail (timestamp, URL, status, message) of the
failing page. -/
lemma addChangedKeysGo_consecutive_err (cfg : Config) (now day : Nat) (kind : String)
    (status : Option Nat) (msg : String) (rest : List PageResult) :
    ∀ (n r offset pages : Nat) (sets : KeySets), offset ≤ 10000 →
      r + n = cfg.retries + 1 → 1 ≤ n →
      addChangedKeysGo cfg now day kind
          (List.replicate n (PageResult.err status msg) ++ rest) offset r pages sets =
        Except.error ⟨now, ⟨day, kind, offset⟩, status, msg⟩ := by
  intro n
  induction n with
  | zero => intro r offset pages sets hoff hr h1; omega
  | succ n ih =>
    intro r offset pages sets hoff hr _
    rw [List.replicate_succ, List.cons_append, addChangedKeysGo, if_pos hoff]
    by_cases hre : r + 1 > cfg.retries
    · rw [if_pos hre]
    · rw [if_neg hre]
      exact ih (r + 1) offset pages sets hoff (by omega) (by omega)

/-- C3: a discovery page that fails more times than the configured retry
bound aborts the pass immediately with the failure detail (timestamp, URL,
status code or error message); the run then ends Failed with that error
detail persisted under the discovery error key (`update_keys_error`), the
run-error field (`update_error`) populated, and the watermark unchanged at
the last fully completed day's checkpoint. -/
theorem claim_c3_discovery_retry_exhaustion_fatal (cfg : Config)
    (attempts : Nat → String → List PageResult) (oA oW oE : List (String → Bool))
    (t0 today : Nat) (st : ControlStore) (saved : List String)
    (writes : List (Nat × KeySets)) (e : KeysError)
    (hq : st.unprocessedAuthorKeys = [] ∧ st.unprocessedWorkKeys = [] ∧
      st.unprocessedEditionKeys = [])
    (hf : fetchKeys cfg t0 attempts st.updateKeysTime today = (writes, Except.error e)) :
    (∃ st2, update cfg attempts oA oW oE t0 today st saved =
        RunOutcome.failed st2 saved [] e ∧
      st2.updateKeysError = some e ∧
      st2.updateError = some (runErrorMessage e) ∧
      st2.updateKeysTime = (writes.map Prod.fst).getLastD st.updateKeysTime) ∧
    (∀ (status : Option Nat) (msg : String) (rest : List PageResult) (day : Nat)
        (kind : String) (offset pages : Nat) (sets : KeySets), offset ≤ 10000 →
      addChangedKeysGo cfg t0 day kind
          (List.replicate (cfg.retries + 1) (PageResult.err status msg) ++ rest)
          offset 0 pages sets =
        Except.error ⟨t0, ⟨day, kind, offset⟩, status, msg⟩) := by
  constructor
  · simp only [update]
    rw [if_pos hq, hf]
    refine ⟨_, rfl, rfl, rfl, ?_⟩
    exact applyWrites_updateKeysTime writes _
  · intro status msg rest day kind offset pages sets hoff
    exact addChangedKeysGo_consecutive_err cfg t0 day kind status msg rest
      (cfg.retries + 1) 0 offset pages sets hoff (by omega) (by omega)

theorem claim_c3_discovery_retry_exhaustion_fatal_witness :
    (([] : List String) = [] ∧ ([] : List String) = [] ∧ ([] : List String) = []) ∧
      fetchKeys defaultConfig 7
          (fun _ _ => [PageResult.err (some 500) (r"boom"), PageResult.err (some 500) (r"boom")])
          0 2 =
        ([], Except.error ⟨7, ⟨1, r"add-book", 0⟩, some 500, r"boom"⟩) ∧
      (∃ st2, update defaultConfig
          (fun _ _ => [PageResult.err (some 500) (r"boom"), PageResult.err (some 500) (r"boom")])
          [] [] [] 7 2 ⟨none, 0, none, none, none, none, [], [], []⟩ [] =
          RunOutcome.failed st2 [] [] ⟨7, ⟨1, r"add-book", 0⟩, some 500, r"boom"⟩ ∧
        st2.updateKeysError = some ⟨7, ⟨1, r"add-book", 0⟩, some 500, r"boom"⟩ ∧
        st2.updateError =
          some (runErrorMessage ⟨7, ⟨1, r"add-book", 0⟩, some 500, r"boom"⟩) ∧
        st2.updateKeysTime = (([] : List (Nat × KeySets)).map Prod.fst).getLastD 0) :=
  ⟨⟨rfl, rfl, rfl⟩, rfl,
    (claim_c3_discovery_retry_exhaustion_fatal defaultConfig
      (fun _ _ => [PageResult.err (some 500) (r"boom"), PageResult.err (some 500) (r"boom")])
      [] [] [] 7 2 ⟨none, 0, none, none, none, none, [], [], []⟩ [] []
      ⟨7, ⟨1, r"add-book", 0⟩, some 500, r"boom"⟩ ⟨rfl, rfl, rfl⟩ rfl).1⟩

/-- C6: within a single run, the processing trace splits into the author
segment, then the work segment, then the edition segment (each containing
only its own phase's batch events), and a run that reaches Finished has
fully drained all three persisted queues. -/
theorem claim_c6_strict_phase_order (cfg : Config)
    (attempts : Nat → String → List PageResult) (oA oW oE : List (String → Bool))
    (t0 today : Nat) (st : ControlStore) (saved : List String) :
    (∃ ea ew ee,
      (update cfg attempts oA oW oE t0 today st saved).events = ea ++ ew ++ ee ∧
      (∀ ev ∈ ea, ∀ t ks f, ev = PEvent.batch t ks f → t = (r"author")) ∧
      (∀ ev ∈ ew, ∀ t ks f, ev = PEvent.batch t ks f → t = (r"work")) ∧
      (∀ ev ∈ ee, ∀ t ks f, ev = PEvent.batch t ks f → t = (r"edition"))) ∧
    (∀ stf sv evs,
      update cfg attempts oA oW oE t0 today st saved = RunOutcome.finished stf sv evs →
      stf.unprocessedAuthorKeys = [] ∧ stf.unprocessedWorkKeys = [] ∧
        stf.unprocessedEditionKeys = []) := by
  by_cases hq : st.unprocessedAuthorKeys = [] ∧ st.unprocessedWorkKeys = [] ∧
      st.unprocessedEditionKeys = []
  · simp only [update]
    rw [if_pos hq]
    rcases hfk : fetchKeys cfg t0 attempts st.updateKeysTime today with ⟨writes, res⟩
    cases res with
    | error e =>
      constructor
      · exact ⟨[], [], [], rfl, fun ev h => absurd h (List.not_mem_nil ev),
          fun ev h => absurd h (List.not_mem_nil ev),
          fun ev h => absurd h (List.not_mem_nil ev)⟩
      · intro stf sv evs h
        cases h
    | ok sets =>
      have hcase := fetchKeysGo_ok_writes cfg t0 attempts (today - (st.updateKeysTime + 1))
        (st.updateKeysTime + 1) ⟨[], [], []⟩ [] writes sets hfk
      constructor
      · exact processAll_events_split cfg oA oW oE t0
          { applyWrites { st with updateKeysStartTime := some t0 } writes with
            updateKeysTime := today - 1 } saved sets
      · intro stf sv evs h
        rcases hcase with ⟨hw, hs⟩ | ⟨d, hd⟩
        · subst hw
          subst hs
          exact processAll_finished_queues cfg oA oW oE t0
            { applyWrites { st with updateKeysStartTime := some t0 } [] with
              updateKeysTime := today - 1 } saved ⟨[], [], []⟩ stf sv evs
            hq.1.symm hq.2.1.symm hq.2.2.symm h
        · have hqs := applyWrites_queues_of_getLast writes
            { st with updateKeysStartTime := some t0 } d sets hd
          exact processAll_finished_queues cfg oA oW oE t0
            { applyWrites { st with updateKeysStartTime := some t0 } writes with
              updateKeysTime := today - 1 } saved sets stf sv evs
            hqs.1.symm hqs.2.1.symm hqs.2.2.symm h
  · simp only [update]
    rw [if_neg hq]
    constructor
    · exact processAll_events_split cfg oA oW oE t0 st saved _
    · intro stf sv evs h
      exact processAll_finished_queues cfg oA oW oE t0 st saved _ stf sv evs rfl rfl rfl h

theorem claim_c6_strict_phase_order_witness :
    (∃ ea ew ee,
      (update defaultConfig (fun _ _ => [PageResult.ok []]) [fun _ => true] [] [] 7 2
        ⟨none, 0, none, none, none, none, [r"/authors/OL7A"], [], []⟩ []).events =
          ea ++ ew ++ ee ∧
      (∀ ev ∈ ea, ∀ t ks f, ev = PEvent.batch t ks f → t = (r"author")) ∧
      (∀ ev ∈ ew, ∀ t ks f, ev = PEvent.batch t ks f → t = (r"work")) ∧
      (∀ ev ∈ ee, ∀ t ks f, ev = PEvent.batch t ks f → t = (r"edition"))) ∧
    (⟨none, 0, some 8, some 9, none, none, [], [], []⟩ :
        ControlStore).unprocessedAuthorKeys = [] ∧
      (⟨none, 0, some 8, some 9, none, none, [], [], []⟩ :
        ControlStore).unprocessedWorkKeys = [] ∧
      (⟨none, 0, some 8, some 9, none, none, [], [], []⟩ :
        ControlStore).unprocessedEditionKeys = [] :=
  ⟨(claim_c6_strict_phase_order defaultConfig (fun _ _ => [PageResult.ok []])
      [fun _ => true] [] [] 7 2
      ⟨none, 0, none, none, none, none, [r"/authors/OL7A"], [], []⟩ []).1,
    (claim_c6_strict_phase_order defaultConfig (fun _ _ => [PageResult.ok []])
      [fun _ => true] [] [] 7 2
      ⟨none, 0, none, none, none, none, [r"/authors/OL7A"], [], []⟩ []).2
      ⟨none, 0, some 8, some 9, none, none, [], [], []⟩ [r"/authors/OL7A"]
      [PEvent.batch (r"author") [r"/authors/OL7A"] []] rfl⟩

/-- C8 (amended): when all queues are empty the orchestrator enters
discovery and records the discovery start timestamp (it does not clear the
stored error there — the error is cleared only on reaching Finished); on
reaching Finished it records a finish timestamp and clears the error
field; on Failed (which only a discovery failure causes) it records the
error detail both under the discovery error key and the run-error field,
and the finish time is left at its pre-run value — in particular a failure
during discovery leaves the previous run's finish time in place rather
than unset. -/
theorem claim_c8_run_status_fields (cfg : Config)
    (attempts : Nat → String → List PageResult) (oA oW oE : List (String → Bool))
    (t0 today : Nat) (st : ControlStore) (saved : List String) :
    ((st.unprocessedAuthorKeys = [] ∧ st.unprocessedWorkKeys = [] ∧
        st.unprocessedEditionKeys = []) →
      (update cfg attempts oA oW oE t0 today st saved).store.updateKeysStartTime = some t0) ∧
    (∀ stf sv evs,
      update cfg attempts oA oW oE t0 today st saved = RunOutcome.finished stf sv evs →
      stf.updateError = none ∧ stf.updateFinished = some (t0 + 2) ∧
        stf.updateStarted = some (t0 + 1)) ∧
    (∀ stf sv evs e,
      update cfg attempts oA oW oE t0 today st saved = RunOutcome.failed stf sv evs e →
      stf.updateError = some (runErrorMessage e) ∧ stf.updateKeysError = some e ∧
        stf.updateFinished = st.updateFinished) := by
  by_cases hq : st.unprocessedAuthorKeys = [] ∧ st.unprocessedWorkKeys = [] ∧
      st.unprocessedEditionKeys = []
  · simp only [update]
    rw [if_pos hq]
    rcases hfk : fetchKeys cfg t0 attempts st.updateKeysTime today with ⟨writes, res⟩
    cases res with
    | error e =>
      refine ⟨?_, ?_, ?_⟩
      · intro _
        exact (applyWrites_fixed writes _).1
      · intro stf sv evs h
        cases h
      · intro stf sv evs e2 h
        injection h with h1 h2 h3 h4
        subst h1
        subst h4
        exact ⟨rfl, rfl, (applyWrites_fixed writes _).2.2.1⟩
    | ok sets =>
      refine ⟨?_, ?_, ?_⟩
      · intro _
        exact (processAll_store_const cfg oA oW oE t0
          { applyWrites { st with updateKeysStartTime := some t0 } writes with
            updateKeysTime := today - 1 } saved sets).1.trans
          (applyWrites_fixed writes _).1
      · intro stf sv evs h
        exact processAll_finished_fields cfg oA oW oE t0
          { applyWrites { st with updateKeysStartTime := some t0 } writes with
            updateKeysTime := today - 1 } saved sets stf sv evs h
      · intro stf sv evs e h
        have h2 : processAll cfg oA oW oE t0
            { applyWrites { st with updateKeysStartTime := some t0 } writes with
              updateKeysTime := today - 1 } saved sets = RunOutcome.failed stf sv evs e := h
        have hnf := processAll_not_failed cfg oA oW oE t0
          { applyWrites { st with updateKeysStartTime := some t0 } writes with
            updateKeysTime := today - 1 } saved sets
        rw [h2] at hnf
        simp [RunOutcome.isFailed] at hnf
  · simp only [update]
    rw [if_neg hq]
    refine ⟨?_, ?_, ?_⟩
    · intro hqq
      exact absurd hqq hq
    · intro stf sv evs h
      exact processAll_finished_fields cfg oA oW oE t0 st saved _ stf sv evs h
    · intro stf sv evs e h
      have hnf := processAll_not_failed cfg oA oW oE t0 st saved
        ⟨st.unprocessedAuthorKeys, st.unprocessedWorkKeys, st.unprocessedEditionKeys⟩
      rw [h] at hnf
      simp [RunOutcome.isFailed] at hnf

theorem claim_c8_run_status_fields_witness :
    (update defaultConfig (fun _ _ => [PageResult.ok []]) [] [] [] 7 3
        ⟨none, 0, none, none, some (r"old"), none, [], [], []⟩ []).store.updateKeysStartTime =
      some 7 ∧
    ((⟨some 7, 2, some 8, some 9, none, none, [], [], []⟩ :
        ControlStore).updateError = none ∧
      (⟨some 7, 2, some 8, some 9, none, none, [], [], []⟩ :
        ControlStore).updateFinished = some 9 ∧
      (⟨some 7, 2, some 8, some 9, none, none, [], [], []⟩ :
        ControlStore).updateStarted = some 8) :=
  ⟨(claim_c8_run_status_fields defaultConfig (fun _ _ => [PageResult.ok []]) [] [] [] 7 3
      ⟨none, 0, none, none, some (r"old"), none, [], [], []⟩ []).1 ⟨rfl, rfl, rfl⟩,
    (claim_c8_run_status_fields defaultConfig (fun _ _ => [PageResult.ok []]) [] [] [] 7 3
      ⟨none, 0, none, none, some (r"old"), none, [], [], []⟩ []).2.1
      ⟨some 7, 2, some 8, some 9, none, none, [], [], []⟩ [] [] rfl⟩

/-- C8 counterexample, two concrete runs against the claim as stated.
First run: queues empty and a stored error `"stale"`; discovery runs and
finds one author key; the process stops before the first batch. The
durable store still holds `updateError = some "stale"`: entering discovery
did not clear the stored error. Second run: `updateFinished = some 5` from
a previous run, queues empty, and the discovery page fails beyond the
retry bound; the run ends Failed with `updateFinished` still `some 5` —
the finish time is not left unset on this Failed run. -/
theorem claim_c8_counterexample :
    ((update defaultConfig (fun _ _ => [PageResult.ok [[r"/authors/OL9A"]]]) [] [] [] 7 2
        ⟨none, 0, none, none, some (r"stale"), none, [], [], []⟩ []).isInterrupted = true ∧
      (update defaultConfig (fun _ _ => [PageResult.ok [[r"/authors/OL9A"]]]) [] [] [] 7 2
        ⟨none, 0, none, none, some (r"stale"), none, [], [], []⟩ []).store.updateError =
        some (r"stale")) ∧
    ((update defaultConfig
        (fun _ _ => [PageResult.err (some 500) (r"boom"), PageResult.err (some 500) (r"boom")])
        [] [] [] 7 2 ⟨none, 0, none, some 5, none, none, [], [], []⟩ []).isFailed = true ∧
      (update defaultConfig
        (fun _ _ => [PageResult.err (some 500) (r"boom"), PageResult.err (some 500) (r"boom")])
        [] [] [] 7 2 ⟨none, 0, none, some 5, none, none, [], [], []⟩
        []).store.updateFinished = some 5) :=
  ⟨⟨rfl, rfl⟩, ⟨rfl, rfl⟩⟩

end ReadarrServer
